import Mathlib

/-!
Verification of the discovery-and-supervision engine of the gift-listener
service (src/main.py) against its natural-language specification.

The shallow embedding below follows the source file closely:

* `Gift`, `GiftEvent`      : the fields of a domain event the code reads
  (src/main.py lines 354-367).
* `extractDiamonds`        : the per-item-value extraction of `on_gift`
  (lines 354-357), including Python truthiness of the `or` chain.
* `logGift`, `sendDiscord` : the two fire-and-forget dispatches with their
  try/except wrappers (lines 407-475), modelled over `Except`.
* `onGift`                 : the event handler body (lines 342-378).
* `isLiveRun`              : the probe `is_live` (lines 245-256) with its
  try/except/finally structure.
* `ScanStep`/`Reachable`   : the per-entity supervision-slot protocol of
  `scan_loop` (lines 226-242) as a small transition system.
* `listenerTrace`          : the sequence of externally visible actions of
  `listener_loop` (lines 334-404).
* `statusTick`             : one iteration of `status_loop` (lines 478-488).
* `slugifyL`               : `_slugify` (lines 58-73), with the NFKD
  normalisation step of `_strip_to_ascii` (an external library call,
  `unicodedata.normalize`) kept as an explicit function parameter.
-/

namespace GiftListener

/-! ## Domain events (src/main.py, `on_gift`, lines 342-378)

The code reads `event.gift.diamond_count`, `event.gift.diamond_value`
(both via `getattr` with default `0`), `event.gift.name`,
`event.repeat_count`, `event.user.unique_id` and `event.user.nickname`.
The spec additionally speaks of a nested info field, so the model carries
one (`info_diamond`); the code never reads it. Absent attributes are
`none`. Values are `Int`, as Python integers. -/

structure Gift where
  diamond_count : Option Int
  diamond_value : Option Int
  info_diamond : Option Int
  name : String
deriving DecidableEq, Repr

structure GiftEvent where
  gift : Gift
  repeat_count : Int
  user_unique_id : String
  user_nickname : String
deriving DecidableEq, Repr

/-- Per-item value extraction of `on_gift` (src/main.py lines 354-357):
`getattr(event.gift, "diamond_count", 0) or getattr(event.gift, "diamond_value", 0)`.
Python `x or y` yields `x` when `x` is truthy (a nonzero integer) and `y`
otherwise, so a missing or zero `diamond_count` falls through to
`diamond_value` (itself defaulting to 0). -/
def extractDiamonds (g : Gift) : Int :=
  let dc := g.diamond_count.getD 0
  if dc ≠ 0 then dc else g.diamond_value.getD 0

/-- The extraction order claimed by the spec (§4.3): prefer an explicit
count field, then a legacy value field, then a nested info field,
defaulting to 0 if none is present. Stated from the spec's words, for
comparison with `extractDiamonds`. -/
def specPerItemValue (g : Gift) : Int :=
  match g.diamond_count with
  | some v => v
  | none =>
    match g.diamond_value with
    | some v => v
    | none => g.info_diamond.getD 0

/-- The repeat-count defaulting claimed by the spec (§4.3): default 1 if
absent or non-positive. Stated from the spec's words; the code
(src/main.py line 358) uses `event.repeat_count` unchanged. -/
def specRepeatCount (r : Int) : Int :=
  if r ≤ 0 then 1 else r

/-! ## The two fire-and-forget sinks (src/main.py lines 407-475)

Each external call either succeeds or raises; `SinkOutcome` is that
environment choice. Exceptions are `Except.error`; a Python
`try: ... except Exception: pass` is `swallow`. -/

inductive SinkOutcome where
  | ok
  | fail
deriving DecidableEq, Repr

/-- `try: body except Exception: pass` around a unit-valued call. -/
def swallow (body : Except String Unit) : Except String Unit :=
  match body with
  | .ok u => .ok u
  | .error _ => .ok ()

/-- `self.pool.execute(insert ...)` (src/main.py lines 418-437): raises
`StorageError` on failure. -/
def poolExecute (db : SinkOutcome) : Except String Unit :=
  match db with
  | .ok => .ok ()
  | .fail => .error "StorageError"

/-- `log_gift` (src/main.py lines 407-439): the insert wrapped in
`try/except Exception: pass`. -/
def logGift (db : SinkOutcome) : Except String Unit :=
  swallow (poolExecute db)

/-- `self.http.post(DISCORD_WEBHOOK_URL, ...)` (src/main.py line 473):
raises `DeliveryError` on failure. -/
def httpPost (hp : SinkOutcome) : Except String Unit :=
  match hp with
  | .ok => .ok ()
  | .fail => .error "DeliveryError"

/-- `send_discord` (src/main.py lines 442-475): returns early when no
webhook is configured, otherwise posts inside `try/except`. The image
lookups (lines 454-458) are total (all their fallible steps are
internally guarded) and do not affect whether the function raises, so
they are not modelled further here. -/
def sendDiscord (webhookConfigured : Bool) (hp : SinkOutcome) : Except String Unit :=
  if webhookConfigured then swallow (httpPost hp) else .ok ()

/-- What one run of the `on_gift` handler body did. -/
structure GiftReport where
  total : Int
  persistAttempted : Bool
  alertAttempted : Bool
deriving DecidableEq, Repr

/-- The `on_gift` handler body (src/main.py lines 342-378): compute
`diamonds` and `total`, await `log_gift`, then await `send_discord` iff
`total >= DIAMOND_ALERT_THRESHOLD`. An uncaught exception in either
dispatch would propagate out of the handler (short-circuit the `do`
block); the report records which dispatches were reached. -/
def onGift (threshold : Int) (e : GiftEvent) (db hp : SinkOutcome)
    (webhookConfigured : Bool) : Except String GiftReport :=
  let diamonds := extractDiamonds e.gift
  let total := diamonds * e.repeat_count
  match logGift db with
  | .error msg => .error msg
  | .ok _ =>
    if total ≥ threshold then
      match sendDiscord webhookConfigured hp with
      | .error msg => .error msg
      | .ok _ => .ok { total := total, persistAttempted := true, alertAttempted := true }
    else
      .ok { total := total, persistAttempted := true, alertAttempted := false }

/-! ## The liveness probe (src/main.py, `is_live`, lines 245-256) -/

/-- Result of one probe run: the value returned to the caller and whether
`client.disconnect()` was invoked. -/
structure ProbeRun where
  result : Except String Bool
  disconnectCalled : Bool
deriving Repr

/-- `is_live` (src/main.py lines 245-256): `try: return await wait_for(
client.is_live(), timeout) except Exception: return False finally:
try: await client.disconnect() except Exception: pass`. The remote call
either yields a boolean or raises (timeout, network failure, malformed
response) - that choice is the `probe` argument; the `finally` block
always runs and swallows any disconnect error (`disc` argument). -/
def isLiveRun (probe : Except String Bool) (disc : Except String Unit) : ProbeRun :=
  let caught : Except String Bool :=
    match probe with
    | .ok b => .ok b
    | .error _ => .ok false
  let _finallyOutcome := swallow disc
  { result := caught, disconnectCalled := true }

/-! ## The supervision-slot protocol of `scan_loop` (src/main.py lines 226-242)

For one entity, `scan_loop` is the only code that ever creates a listener
task (`state.task = asyncio.create_task(...)`, line 236). Per pass it
checks `if state.task and not state.task.done(): continue` (line 231) and
only then awaits the probe (a suspension point, during which tasks may
complete) before launching. The model keeps, for a single entity, the
list of supervision tasks launched so far (newest first; `state.task`
references the head) and whether the scheduler is between its slot check
and a launch. Python asyncio is single-threaded and `scan_loop` is a
single task, so at most one check is pending at a time. -/

inductive TaskStatus where
  | running
  | done
deriving DecidableEq, Repr

/-- State of one entity's supervision slot: the tasks launched for it so
far (newest first) and whether `scan_loop` has passed the slot check and
is awaiting `is_live`. -/
structure SlotState where
  tasks : List TaskStatus
  probing : Bool
deriving DecidableEq, Repr

/-- The slot check of src/main.py line 231 succeeds when there is no task
yet or the most recent one has completed. -/
def slotFree (tasks : List TaskStatus) : Bool :=
  match tasks.head? with
  | some .running => false
  | _ => true

/-- Number of supervision tasks currently running for the entity. -/
def runningTasks (tasks : List TaskStatus) : Nat :=
  tasks.countP (· = .running)

/-- One interleaving step of the system around one entity's slot:
a task may complete at any time; the scheduler may pass the slot check
(only when the slot is free) and start probing; after the probe it either
launches a fresh task into the slot (line 236) or moves on. -/
inductive ScanStep : SlotState → SlotState → Prop where
  | taskCompletes (s : SlotState) (pre post : List TaskStatus)
      (h : s.tasks = pre ++ .running :: post) :
      ScanStep s { s with tasks := pre ++ .done :: post }
  | checkPasses (s : SlotState) (h1 : s.probing = false) (h2 : slotFree s.tasks = true) :
      ScanStep s { s with probing := true }
  | probeLiveLaunch (s : SlotState) (h : s.probing = true) :
      ScanStep s { tasks := .running :: s.tasks, probing := false }
  | probeNotLive (s : SlotState) (h : s.probing = true) :
      ScanStep s { s with probing := false }

/-- States reachable from the initial state (no task yet, no pending
check) by any interleaving of scheduler passes and task completions. -/
inductive ScanReachable : SlotState → Prop where
  | init : ScanReachable { tasks := [], probing := false }
  | step {s t : SlotState} (hs : ScanReachable s) (hst : ScanStep s t) : ScanReachable t

/-! ## `listener_loop` (src/main.py lines 334-404)

The supervisor loop: while not stopping, build a client, connect, consume
the stream, and in the `finally` block disconnect and sleep 5 seconds
before the next iteration. The observable actions per iteration are
recorded as a trace. There is no call to `is_live` anywhere in
`listener_loop`; probing happens only in `scan_loop` before the task is
launched. -/

inductive SupAction where
  | connectAttempt
  | consumeStream
  | disconnect
  | backoffSleep
  | probe
deriving DecidableEq, Repr

/-- How one iteration's session ends: `client.connect()` raises, or the
stream runs and then ends (remote close, idle-watch disconnect, or
error); either way control reaches the `finally` block (lines 389-402). -/
inductive SessionOutcome where
  | connectFailed
  | streamEnded
deriving DecidableEq, Repr

/-- The delay slept in `listener_loop` after a session ends and before
the next iteration (src/main.py line 402): `await asyncio.sleep(5)`,
the same on every consecutive failure. -/
def backoffDelay (_attempt : Nat) : Nat := 5

/-- The exponential-backoff delay described by the spec (§4.2): seeded at
`base`, multiplied by `mult` per consecutive failure, capped at `cap`.
Stated from the spec's words, for comparison with `backoffDelay`. -/
def specBackoffDelay (base mult cap : ℚ) (attempt : Nat) : ℚ :=
  min cap (base * mult ^ attempt)

/-- Actions of one `listener_loop` iteration whose session ends as `o`,
with `stoppingAfter` the value of `state.stopping` observed in the
`finally` block (line 401). -/
def iterationTrace (o : SessionOutcome) (stoppingAfter : Bool) : List SupAction :=
  (match o with
   | .connectFailed => [SupAction.connectAttempt, SupAction.disconnect]
   | .streamEnded => [SupAction.connectAttempt, SupAction.consumeStream, SupAction.disconnect])
  ++ (if stoppingAfter then [] else [SupAction.backoffSleep])

/-- Trace of a `listener_loop` run over a sequence of session outcomes,
with `stopping` never requested (the entity is not being shut down): one
iteration per outcome, each followed by the next reconnect. -/
def listenerTrace : List SessionOutcome → List SupAction
  | [] => []
  | o :: rest => iterationTrace o false ++ listenerTrace rest

/-! ## `CreatorState` and the per-session field updates
(src/main.py lines 50-55 and 334-404)

`CreatorState` has fields `username`, `task`, `last_event`, `stopping`;
there is no reconnect-attempt counter. Within `listener_loop`, the only
write to `last_event` is `state.last_event = time.time()` inside
`on_gift` (line 343); a successful `client.connect()` (line 390) writes
no field of the state. -/

structure CreatorState where
  username : String
  last_event : Nat
  stopping : Bool
deriving DecidableEq, Repr

/-- `CreatorState(username)` as created by `scan_loop` line 229:
`last_event` defaults to the current time (line 54). -/
def CreatorState.create (username : String) (now : Nat) : CreatorState :=
  { username := username, last_event := now, stopping := false }

/-- The update `listener_loop` performs on `CreatorState` at a successful
`client.connect()` (src/main.py line 390): none - no field is written on
session open. -/
def onSessionOpen (s : CreatorState) (_now : Nat) : CreatorState := s

/-- The update `on_gift` performs on `CreatorState` (src/main.py
line 343): `state.last_event = time.time()`. -/
def onGiftStateUpdate (s : CreatorState) (now : Nat) : CreatorState :=
  { s with last_event := now }

/-- One session of `listener_loop` as it affects `CreatorState`:
the session opens at `now` (updating nothing) and then each received
gift stamps its arrival time into `last_event`. -/
def sessionRun (s : CreatorState) (now : Nat) (giftTimes : List Nat) : CreatorState :=
  giftTimes.foldl onGiftStateUpdate (onSessionOpen s now)

/-! ## `status_loop` (src/main.py lines 478-488)

Every 120 seconds it partitions the known states by whether their task is
still running and emits one log line. That is the whole body: it reads no
timestamps and never terminates the process. -/

inductive StatusAction where
  | logActive (names : List String)
  | logNoActive
  | terminateProcess
deriving DecidableEq, Repr

/-- Whether a status action terminates the process. -/
def isTermination : StatusAction → Bool
  | .terminateProcess => true
  | _ => false

/-- One tick of `status_loop` (src/main.py lines 480-488): collect the
usernames whose task exists and is not done, and log either the active
list or "No active listeners". -/
def statusTick (states : List (String × Bool)) : StatusAction :=
  let active := (states.filter (fun p => p.2)).map (fun p => p.1)
  if active.isEmpty then .logNoActive else .logActive active

/-- The actions emitted by `status_loop` over its first `n` ticks, where
`statesAt i` is the service's task table at tick `i`. -/
def statusTrace (statesAt : Nat → List (String × Bool)) (n : Nat) : List StatusAction :=
  (List.range n).map (fun i => statusTick (statesAt i))

/-! ## `_slugify` (src/main.py lines 58-73)

The normalisation pipeline, stage by stage, over `List Char`:

```
s = (s or "").strip().lower()
s = _strip_to_ascii(s)            # NFKD normalise, then drop non-ASCII
s = s.replace("&", "and")
s = re.sub(r"[fancy quotes]", apostrophe, s)
s = s.replace(apostrophe, "")
s = re.sub(r"[^a-z0-9]+", under, s)
s = re.sub(r"under+", under, s).strip(under)
```

`unicodedata.normalize("NFKD", _)` is an external library call; it is
kept as an explicit function parameter `nfkd` of the pipeline. The one
fact about it the theorems use is that NFKD normalisation leaves ASCII
strings unchanged (ASCII text is already in normal form), which is
supplied as a hypothesis and instantiated by the identity function in
witnesses. -/

/-- The underscore character, code point 95. -/
def underChar : Char := Char.ofNat 95

/-- The apostrophe character, code point 39. -/
def aposChar : Char := Char.ofNat 39

/-- Python `str.strip()` whitespace (the ASCII part of `str.isspace`):
space, tab, newline, carriage return, vertical tab, form feed. -/
def pyIsSpace (c : Char) : Bool :=
  decide (c.toNat = 32) || decide (c.toNat = 9) || decide (c.toNat = 10)
    || decide (c.toNat = 13) || decide (c.toNat = 11) || decide (c.toNat = 12)

/-- Python `str.strip()`: drop leading and trailing whitespace. -/
def pyStrip (l : List Char) : List Char :=
  ((l.dropWhile pyIsSpace).reverse.dropWhile pyIsSpace).reverse

/-- Python `str.lower()`, restricted to its ASCII action (uppercase
A-Z to lowercase); the pipeline discards non-ASCII right afterwards. -/
def pyLower (l : List Char) : List Char :=
  l.map Char.toLower

/-- `.encode("ascii", "ignore")` of `_strip_to_ascii` (src/main.py
line 62): keep only code points below 128. -/
def asciiIgnore (l : List Char) : List Char :=
  l.filter (fun c => decide (c.toNat < 128))

/-- `s.replace("&", "and")` (src/main.py line 68). -/
def replaceAmp : List Char → List Char
  | [] => []
  | c :: rest =>
    (if c.toNat = 38 then [Char.ofNat 97, Char.ofNat 110, Char.ofNat 100] else [c])
      ++ replaceAmp rest

/-- The three fancy-quote characters of the character class on
src/main.py line 69: right single quotation mark (8217), grave accent
(96), acute accent (180). -/
def isFancyQuote (c : Char) : Bool :=
  decide (c.toNat = 8217) || decide (c.toNat = 96) || decide (c.toNat = 180)

/-- `re.sub` of the fancy quotes to an apostrophe (src/main.py line 69). -/
def quotesToApos (l : List Char) : List Char :=
  l.map (fun c => if isFancyQuote c then aposChar else c)

/-- Removal of apostrophes (src/main.py line 70). -/
def dropApos (l : List Char) : List Char :=
  l.filter (fun c => !(decide (c.toNat = 39)))

/-- Membership in the character class `[a-z0-9]`. -/
def isLowerAlnum (c : Char) : Bool :=
  decide (97 ≤ c.toNat ∧ c.toNat ≤ 122) || decide (48 ≤ c.toNat ∧ c.toNat ≤ 57)

/-- `re.sub(r"[^a-z0-9]+", under, s)` (src/main.py line 71): each maximal
run of characters outside `[a-z0-9]` becomes a single underscore. -/
def collapseNonAlnum : List Char → List Char
  | [] => []
  | c :: rest =>
    if isLowerAlnum c then
      c :: collapseNonAlnum rest
    else
      underChar :: collapseNonAlnum (rest.dropWhile (fun d => !(isLowerAlnum d)))
termination_by l => l.length
decreasing_by
  all_goals simp only [List.length_cons]
  · omega
  · exact Nat.lt_succ_of_le (List.dropWhile_sublist _).length_le

/-- `re.sub(r"under+", under, s)` (src/main.py line 72): collapse runs of
underscores to a single one. -/
def collapseUnderRuns : List Char → List Char
  | [] => []
  | c :: rest =>
    if c = underChar then
      c :: collapseUnderRuns (rest.dropWhile (fun d => d = underChar))
    else
      c :: collapseUnderRuns rest
termination_by l => l.length
decreasing_by
  all_goals simp only [List.length_cons]
  · exact Nat.lt_succ_of_le (List.dropWhile_sublist _).length_le
  · omega

/-- `.strip(under)` (src/main.py line 72): drop leading and trailing
underscores. -/
def stripEdgeUnders (l : List Char) : List Char :=
  ((l.dropWhile (fun c => c = underChar)).reverse.dropWhile (fun c => c = underChar)).reverse

/-- `_slugify` (src/main.py lines 65-73), with the NFKD normalisation of
`_strip_to_ascii` passed in as `nfkd`. -/
def slugifyL (nfkd : List Char → List Char) (s : List Char) : List Char :=
  let s1 := pyLower (pyStrip s)
  let s2 := asciiIgnore (nfkd s1)
  let s3 := replaceAmp s2
  let s4 := dropApos (quotesToApos s3)
  let s5 := collapseNonAlnum s4
  stripEdgeUnders (collapseUnderRuns s5)

/-- A slug character: lowercase ASCII letter, digit, or underscore. -/
def isSlugChar (c : Char) : Bool :=
  isLowerAlnum c || decide (c = underChar)

/-- No two adjacent underscores anywhere in the list. -/
def noDoubleUnder : List Char → Bool
  | c :: d :: rest => !(decide (c = underChar) && decide (d = underChar)) && noDoubleUnder (d :: rest)
  | _ => true

/-- An ASCII character (code point below 128). -/
def isAsciiChar (c : Char) : Bool :=
  decide (c.toNat < 128)

/-- Slug shape: only lowercase letters, digits and underscores; single
interior underscores only (no run, none leading, none trailing). -/
def isSlug (l : List Char) : Bool :=
  l.all isSlugChar && noDoubleUnder l
    && !(decide (l.head? = some underChar)) && !(decide (l.getLast? = some underChar))

/-! ## Sample values used in witnesses and counterexamples -/

/-- A sample entity name. -/
def sampleName : String := "alice"

/-- A sample gift name. -/
def sampleGiftName : String := "rose"

/-- A domain event with per-item value 500 (explicit count field) and
repeat count 12, the instance named by the spec (§8, property 6). -/
def sampleEvent : GiftEvent :=
  { gift := { diamond_count := some 500, diamond_value := none,
              info_diamond := none, name := sampleGiftName },
    repeat_count := 12,
    user_unique_id := sampleName,
    user_nickname := sampleName }

/-- A gift whose only value information sits in the nested info field. -/
def infoOnlyGift : Gift :=
  { diamond_count := none, diamond_value := none,
    info_diamond := some 7, name := sampleGiftName }

/-! # Theorems -/

/-- `log_gift` swallows every persistence failure: it always returns. -/
theorem logGift_ok (db : SinkOutcome) : logGift db = .ok () := by
  cases db <;> rfl

/-- `send_discord` swallows every delivery failure: it always returns. -/
theorem sendDiscord_ok (wb : Bool) (hp : SinkOutcome) : sendDiscord wb hp = .ok () := by
  cases wb <;> cases hp <;> rfl

/-- Master run lemma for the `on_gift` body: since both dispatches
swallow their failures, the handler always returns the report determined
by the computed total, whatever the sinks do. -/
theorem onGift_run (thr : Int) (e : GiftEvent) (db hp : SinkOutcome) (wb : Bool) :
    onGift thr e db hp wb =
      .ok { total := extractDiamonds e.gift * e.repeat_count,
            persistAttempted := true,
            alertAttempted := decide (extractDiamonds e.gift * e.repeat_count ≥ thr) } := by
  have h1 := logGift_ok db
  have h2 := sendDiscord_ok wb hp
  by_cases hc : extractDiamonds e.gift * e.repeat_count ≥ thr <;>
    simp [onGift, h1, h2, hc]

/-- C3: for every domain event the computed total equals per-item value
times repeat count in integer arithmetic, and the alert dispatch is
attempted if and only if the total reaches the threshold; at per-item
value 500 and repeat count 12 the total is exactly 6000, which alerts
at threshold 4999 and does not at threshold 9999. -/
theorem onGift_total_and_alert_threshold :
    (∀ (thr : Int) (e : GiftEvent) (db hp : SinkOutcome) (wb : Bool),
      ∃ r : GiftReport,
        onGift thr e db hp wb = .ok r ∧
        r.total = extractDiamonds e.gift * e.repeat_count ∧
        (r.alertAttempted = true ↔ thr ≤ r.total)) ∧
    onGift 4999 sampleEvent .ok .ok true =
      .ok { total := 6000, persistAttempted := true, alertAttempted := true } ∧
    onGift 9999 sampleEvent .ok .ok true =
      .ok { total := 6000, persistAttempted := true, alertAttempted := false } := by
  refine ⟨?_, by rfl, by rfl⟩
  intro thr e db hp wb
  refine ⟨_, onGift_run thr e db hp wb, rfl, ?_⟩
  simp [ge_iff_le]

/-- C7: the outcome of the `on_gift` body does not depend on whether the
persistence sink or the alert sink fails - a persistence failure cannot
prevent the alert evaluation or dispatch and vice versa - and the handler
never surfaces an exception: it always returns a report with the
persistence dispatch attempted. -/
theorem giftSink_failures_independent :
    ∀ (thr : Int) (e : GiftEvent) (db db2 hp hp2 : SinkOutcome) (wb : Bool),
      onGift thr e db hp wb = onGift thr e db2 hp2 wb ∧
      ∃ r : GiftReport, onGift thr e db hp wb = .ok r ∧ r.persistAttempted = true := by
  intro thr e db db2 hp hp2 wb
  refine ⟨?_, _, onGift_run thr e db hp wb, rfl⟩
  rw [onGift_run, onGift_run]

/-- C9: the probe returns a boolean and never propagates an exception to
its caller - any probe error yields `false` - and the disconnect of the
`finally` block is always attempted, its own failure also swallowed, so
the result does not depend on the disconnect outcome. -/
theorem is_live_never_raises :
    ∀ (probe : Except String Bool) (disc disc2 : Except String Unit),
      (∃ b : Bool, (isLiveRun probe disc).result = .ok b) ∧
      (isLiveRun probe disc).disconnectCalled = true ∧
      isLiveRun probe disc = isLiveRun probe disc2 ∧
      (∀ msg : String, (isLiveRun (.error msg) disc).result = .ok false) := by
  intro probe disc disc2
  refine ⟨?_, rfl, rfl, fun msg => rfl⟩
  cases probe with
  | ok b => exact ⟨b, rfl⟩
  | error msg => exact ⟨false, rfl⟩

/-- C5 counterexample: the delay slept between reconnect attempts in
`listener_loop` is the constant 5 seconds; it is not an exponential
backoff seeded at the spec's stated base of 2 seconds - already the
first delay differs (5 versus 2). -/
theorem backoff_not_exponential :
    backoffDelay 0 = 5 ∧ backoffDelay 1 = 5 ∧
    specBackoffDelay 2 (9 / 5) 60 0 = 2 ∧ ((5 : ℚ) ≠ 2) := by
  refine ⟨rfl, rfl, ?_, by norm_num⟩
  unfold specBackoffDelay
  norm_num

/-- C5 amended: the reconnect delay is the constant 5 seconds on every
attempt, hence trivially non-decreasing across any two consecutive
failures and never above its constant bound of 5 seconds. -/
theorem backoffDelay_constant_monotone_capped :
    ∀ m n : Nat, backoffDelay n = 5 ∧ backoffDelay m ≤ backoffDelay n ∧ backoffDelay n ≤ 5 :=
  fun _ _ => ⟨rfl, le_refl 5, le_refl 5⟩

/-- A tick of `status_loop` is never a termination. -/
theorem isTermination_statusTick (states : List (String × Bool)) :
    isTermination (statusTick states) = false := by
  by_cases h : (List.map (fun p => p.1) (List.filter (fun p => p.2) states)).isEmpty = true <;>
    simp [statusTick, isTermination, h]

/-- C1 counterexample: over any stretch of watchdog ticks - here ten
ticks, 1200 seconds, past the spec's 8-minute stall threshold - the
`status_loop` body never issues a termination: it only logs the active
set. -/
theorem status_loop_counterexample :
    (statusTrace (fun _ => [(sampleName, true)]) 10).filter isTermination = [] ∧
    statusTick [(sampleName, true)] = StatusAction.logActive [sampleName] := by
  exact ⟨rfl, rfl⟩

/-- C1 amended: the loop cited as the watchdog (`status_loop`) reads no
activity timestamp and no process age; each tick only logs the names of
states whose task is still running (or their absence) and never
terminates the process, whatever the task table and however many ticks
elapse. -/
theorem status_loop_never_terminates :
    ∀ (statesAt : Nat → List (String × Bool)) (n : Nat),
      (statusTrace statesAt n).filter isTermination = [] := by
  intro statesAt n
  simp [statusTrace, List.filter_map, Function.comp, isTermination_statusTick]

/-- C6 counterexample: a listener run through two sessions reconnects
after the first stream end with only a disconnect and the fixed sleep in
between: its trace has two connect attempts and no probe action at all. -/
theorem listener_reconnects_without_probe :
    listenerTrace [SessionOutcome.streamEnded, SessionOutcome.streamEnded] =
      [SupAction.connectAttempt, SupAction.consumeStream, SupAction.disconnect,
       SupAction.backoffSleep,
       SupAction.connectAttempt, SupAction.consumeStream, SupAction.disconnect,
       SupAction.backoffSleep] ∧
    (listenerTrace [SessionOutcome.streamEnded, SessionOutcome.streamEnded]).countP
        (fun a => decide (a = SupAction.probe)) = 0 :=
  ⟨rfl, rfl⟩

/-- C6 amended: `listener_loop` never probes: every iteration opens a
session directly (one connect attempt per session outcome) and after the
session ends it reconnects blindly after the fixed sleep; the only
liveness probe happens in `scan_loop` before the supervision task is
launched. -/
theorem listener_loop_never_probes :
    ∀ os : List SessionOutcome,
      (listenerTrace os).countP (fun a => decide (a = SupAction.probe)) = 0 ∧
      (listenerTrace os).countP (fun a => decide (a = SupAction.connectAttempt)) = os.length := by
  intro os
  induction os with
  | nil => exact ⟨rfl, rfl⟩
  | cons o rest ih =>
    rw [listenerTrace, List.countP_append, List.countP_append, ih.1]
    cases o <;> simp [iterationTrace, ih.2, List.countP_cons] <;> omega

/-- C8 counterexample: a state created at time 100 whose session opens at
time 1000 and receives no event still has `last_event = 100` afterwards:
the claimed reset of the activity timestamp at session open does not
happen (nor does any `reconnect_attempts` reset - `CreatorState` has no
such field). -/
theorem session_open_does_not_reset_last_event :
    (sessionRun (CreatorState.create sampleName 100) 1000 []).last_event = 100 ∧
    (100 : Nat) ≠ 1000 :=
  ⟨rfl, by decide⟩

/-- C8 amended: a successful session open writes no field of
`CreatorState`: across a whole session, `last_event` ends at the arrival
time of the last gift event, and keeps its pre-session value (set at
state creation or by an earlier session's events) when no event arrives;
there is no reconnect-attempt counter in `CreatorState` to reset. -/
theorem sessionRun_last_event :
    ∀ (ts : List Nat) (s : CreatorState) (now : Nat),
      sessionRun s now ts = { s with last_event := ts.getLast?.getD s.last_event } := by
  intro ts
  induction ts with
  | nil => intro s now; rfl
  | cons t rest ih =>
    intro s now
    have hstep : sessionRun s now (t :: rest) =
        sessionRun { s with last_event := t } now rest := rfl
    rw [hstep, ih]
    cases rest with
    | nil => rfl
    | cons u us =>
      cases hlast : (u :: us).getLast? with
      | none => simp at hlast
      | some x => simp [List.getLast?_cons_cons, hlast]

/-- C4 counterexample: for a gift carrying a value only in the nested
info field, the code extracts 0 - the nested-info fallback described by
the spec does not exist in `on_gift`; likewise a repeat count of 0 is
multiplied in unchanged (total 0) instead of defaulting to 1. -/
theorem extraction_no_info_fallback :
    extractDiamonds infoOnlyGift = 0 ∧ specPerItemValue infoOnlyGift = 7 ∧
    ((0 : Int) ≠ 7) ∧ specRepeatCount 0 = 1 ∧
    (∃ r : GiftReport,
      onGift 1 { sampleEvent with repeat_count := 0 } .ok .ok true = .ok r ∧
      r.total = 0) := by
  refine ⟨rfl, rfl, by decide, rfl, _, onGift_run 1 _ .ok .ok true, rfl⟩

/-- C4 amended: the per-item value is the explicit count field when that
is present and nonzero; a missing - or present-but-zero - count falls
through to the legacy value field, defaulting to 0 when that too is
missing; the nested info field is never consulted; and the repeat count
enters the total unchanged, with no defaulting. -/
theorem extractDiamonds_characterization :
    ∀ (v w : Int) (iv : Option Int) (nm : String),
      extractDiamonds { diamond_count := some 0, diamond_value := some w,
                        info_diamond := iv, name := nm } = w ∧
      extractDiamonds { diamond_count := none, diamond_value := some w,
                        info_diamond := iv, name := nm } = w ∧
      extractDiamonds { diamond_count := none, diamond_value := none,
                        info_diamond := iv, name := nm } = 0 ∧
      (v ≠ 0 → extractDiamonds { diamond_count := some v, diamond_value := some w,
                                 info_diamond := iv, name := nm } = v) ∧
      (∀ (thr : Int) (e : GiftEvent) (db hp : SinkOutcome) (wb : Bool),
        ∃ r : GiftReport, onGift thr e db hp wb = .ok r ∧
          r.total = extractDiamonds e.gift * e.repeat_count) := by
  intro v w iv nm
  refine ⟨by simp [extractDiamonds], by simp [extractDiamonds],
          by simp [extractDiamonds], ?_, ?_⟩
  · intro hv; simp [extractDiamonds, hv]
  · intro thr e db hp wb; exact ⟨_, onGift_run thr e db hp wb, rfl⟩

/-- Witness for the C4 amended claim: a nonzero explicit count of 3 wins
over a legacy value of 9. -/
theorem extractDiamonds_characterization_witness :
    extractDiamonds { diamond_count := some 3, diamond_value := some 9,
                      info_diamond := none, name := sampleGiftName } = 3 :=
  (extractDiamonds_characterization 3 9 none sampleGiftName).2.2.2.1 (by decide)

/-- The slot protocol's inductive invariant is preserved by every step:
all tasks but the newest are done, and while the scheduler is between
its slot check and the launch, every task (the newest included) is
done. -/
theorem scanStep_preserves_inv {s t : SlotState} (hst : ScanStep s t)
    (h1 : ∀ x ∈ s.tasks.tail, x = TaskStatus.done)
    (h2 : s.probing = true → ∀ x ∈ s.tasks, x = TaskStatus.done) :
    (∀ x ∈ t.tasks.tail, x = TaskStatus.done) ∧
    (t.probing = true → ∀ x ∈ t.tasks, x = TaskStatus.done) := by
  cases hst with
  | taskCompletes pre post h =>
    constructor
    · intro x hx
      cases pre with
      | nil =>
        simp only [List.nil_append, List.tail_cons] at hx
        exact h1 x (by rw [h]; simpa using hx)
      | cons a pre2 =>
        simp only [List.cons_append, List.tail_cons] at hx
        rcases List.mem_append.mp hx with hmem | hmem
        · exact h1 x (by rw [h]; simp [hmem])
        · rcases List.mem_cons.mp hmem with rfl | hmem2
          · rfl
          · exact h1 x (by rw [h]; simp [hmem2])
    · intro hp x _
      have hrun : TaskStatus.running = TaskStatus.done :=
        h2 hp TaskStatus.running (by rw [h]; simp)
      exact absurd hrun (by decide)
  | checkPasses h1p h2p =>
    refine ⟨h1, ?_⟩
    intro _ x hx
    cases htasks : s.tasks with
    | nil => rw [htasks] at hx; cases hx
    | cons hd tl =>
      rw [htasks] at hx
      rcases List.mem_cons.mp hx with rfl | hmem
      · have hfree := h2p
        rw [htasks] at hfree
        cases x with
        | running => simp [slotFree] at hfree
        | done => rfl
      · exact h1 x (by rw [htasks]; exact hmem)
  | probeLiveLaunch hpp =>
    constructor
    · intro x hx
      simp only [List.tail_cons] at hx
      exact h2 hpp x hx
    · intro hcontra; simp at hcontra
  | probeNotLive hpp =>
    refine ⟨h1, ?_⟩
    intro hcontra; simp at hcontra

/-- The inductive invariant holds in every reachable slot state. -/
theorem scanReachable_inv (s : SlotState) (hs : ScanReachable s) :
    (∀ x ∈ s.tasks.tail, x = TaskStatus.done) ∧
    (s.probing = true → ∀ x ∈ s.tasks, x = TaskStatus.done) := by
  induction hs with
  | init => exact ⟨fun x hx => absurd hx (List.not_mem_nil x),
                   fun _ x hx => absurd hx (List.not_mem_nil x)⟩
  | step _ hst ih => exact scanStep_preserves_inv hst ih.1 ih.2

/-- C2: in every state reachable by any interleaving of scan passes and
task completions, at most one supervision task is running for the
entity - the scheduler launches a new listener task only through a slot
check that saw the slot empty or its previous task completed. -/
theorem scan_loop_at_most_one_task :
    ∀ s : SlotState, ScanReachable s → runningTasks s.tasks ≤ 1 := by
  intro s hs
  obtain ⟨h1, _⟩ := scanReachable_inv s hs
  cases htasks : s.tasks with
  | nil => simp [runningTasks]
  | cons hd tl =>
    have htl : ∀ x ∈ tl, x = TaskStatus.done := by
      intro x hx
      exact h1 x (by rw [htasks]; exact hx)
    have hz : tl.countP (fun x => decide (x = TaskStatus.running)) = 0 := by
      rw [List.countP_eq_zero]
      intro a ha
      simp [htl a ha]
    unfold runningTasks
    rw [List.countP_cons, hz]
    split <;> omega

/-- Witness for C2: the state reached by one full pass (check passes on
the empty slot, probe reports live, task launched) is reachable and has
exactly one running task. -/
theorem scan_loop_at_most_one_task_witness :
    ScanReachable { tasks := [TaskStatus.running], probing := false } ∧
    runningTasks [TaskStatus.running] ≤ 1 := by
  have hreach : ScanReachable { tasks := [TaskStatus.running], probing := false } :=
    ScanReachable.step
      (ScanReachable.step ScanReachable.init
        (ScanStep.checkPasses { tasks := [], probing := false } rfl rfl))
      (ScanStep.probeLiveLaunch { tasks := [], probing := true } rfl)
  exact ⟨hreach, scan_loop_at_most_one_task _ hreach⟩

/-! ### Character-class facts for the slugify pipeline -/

/-- A slug character's code point: lowercase letter, digit, or 95. -/
theorem slugChar_toNat {c : Char} (h : isSlugChar c = true) :
    (97 ≤ c.toNat ∧ c.toNat ≤ 122) ∨ (48 ≤ c.toNat ∧ c.toNat ≤ 57) ∨ c.toNat = 95 := by
  simp only [isSlugChar, isLowerAlnum, Bool.or_eq_true, decide_eq_true_eq] at h
  rcases h with (h | h) | h
  · exact .inl h
  · exact .inr (.inl h)
  · exact .inr (.inr (by rw [h]; rfl))

/-- Slug characters survive every early pipeline stage unchanged: they
are not whitespace, are ASCII, and are none of the specially treated
characters (ampersand 38, fancy quotes 8217/96/180, apostrophe 39). -/
theorem slugChar_facts {c : Char} (h : isSlugChar c = true) :
    pyIsSpace c = false ∧ isAsciiChar c = true ∧ c.toNat ≠ 38 ∧
    isFancyQuote c = false ∧ c.toNat ≠ 39 := by
  have hf := slugChar_toNat h
  refine ⟨?_, ?_, ?_, ?_, ?_⟩
  · simp only [pyIsSpace, Bool.or_eq_false_iff, decide_eq_false_iff_not]
    rcases hf with ⟨a, b⟩ | ⟨a, b⟩ | a <;> omega
  · simp only [isAsciiChar, decide_eq_true_eq]
    rcases hf with ⟨a, b⟩ | ⟨a, b⟩ | a <;> omega
  · rcases hf with ⟨a, b⟩ | ⟨a, b⟩ | a <;> omega
  · simp only [isFancyQuote, Bool.or_eq_false_iff, decide_eq_false_iff_not]
    rcases hf with ⟨a, b⟩ | ⟨a, b⟩ | a <;> omega
  · rcases hf with ⟨a, b⟩ | ⟨a, b⟩ | a <;> omega

/-- Slug characters do not change under ASCII lowercasing. -/
theorem slugChar_toLower {c : Char} (h : isSlugChar c = true) :
    Char.toLower c = c := by
  have hf := slugChar_toNat h
  have hno : ¬(Char.toNat c ≥ 65 ∧ Char.toNat c ≤ 90) := by
    rcases hf with ⟨a, b⟩ | ⟨a, b⟩ | a <;> omega
  simp [Char.toLower, hno]

/-- A `dropWhile` whose predicate fails on every element is the
identity. -/
theorem dropWhile_eq_self_of {α : Type} {p : α → Bool} {l : List α}
    (h : ∀ c ∈ l, p c = false) : l.dropWhile p = l := by
  cases l with
  | nil => rfl
  | cons c rest => simp [List.dropWhile_cons, h c (List.mem_cons_self c rest)]

/-! ### Identity of the early pipeline stages on slug-shaped input -/

/-- Stripping whitespace fixes whitespace-free input. -/
theorem pyStrip_eq_self {l : List Char} (h : ∀ c ∈ l, pyIsSpace c = false) :
    pyStrip l = l := by
  unfold pyStrip
  rw [dropWhile_eq_self_of h,
      dropWhile_eq_self_of (fun c hc => h c (List.mem_reverse.mp hc)),
      List.reverse_reverse]

/-- Lowercasing fixes input made of slug characters. -/
theorem pyLower_eq_self {l : List Char} (h : ∀ c ∈ l, isSlugChar c = true) :
    pyLower l = l := by
  unfold pyLower
  induction l with
  | nil => rfl
  | cons c rest ih =>
    rw [List.map_cons, slugChar_toLower (h c (List.mem_cons_self c rest)),
        ih (fun d hd => h d (List.mem_cons_of_mem c hd))]

/-- The ASCII filter fixes ASCII input. -/
theorem asciiIgnore_eq_self {l : List Char} (h : ∀ c ∈ l, isAsciiChar c = true) :
    asciiIgnore l = l := by
  unfold asciiIgnore
  apply List.filter_eq_self.mpr
  intro a ha
  simpa [isAsciiChar] using h a ha

/-- The ampersand replacement fixes ampersand-free input. -/
theorem replaceAmp_eq_self {l : List Char} (h : ∀ c ∈ l, c.toNat ≠ 38) :
    replaceAmp l = l := by
  induction l with
  | nil => rfl
  | cons c rest ih =>
    simp [replaceAmp, h c (List.mem_cons_self c rest),
          ih (fun d hd => h d (List.mem_cons_of_mem c hd))]

/-- The fancy-quote substitution fixes input without fancy quotes. -/
theorem quotesToApos_eq_self {l : List Char} (h : ∀ c ∈ l, isFancyQuote c = false) :
    quotesToApos l = l := by
  unfold quotesToApos
  induction l with
  | nil => rfl
  | cons c rest ih =>
    rw [List.map_cons, if_neg (by simp [h c (List.mem_cons_self c rest)]),
        ih (fun d hd => h d (List.mem_cons_of_mem c hd))]

/-- The apostrophe removal fixes apostrophe-free input. -/
theorem dropApos_eq_self {l : List Char} (h : ∀ c ∈ l, c.toNat ≠ 39) :
    dropApos l = l := by
  unfold dropApos
  apply List.filter_eq_self.mpr
  intro a ha
  simpa using h a ha

/-! ### The `noDoubleUnder` predicate -/

/-- `noDoubleUnder` restricts to the tail. -/
theorem noDoubleUnder_tail {c : Char} {l : List Char}
    (h : noDoubleUnder (c :: l) = true) : noDoubleUnder l = true := by
  cases l with
  | nil => rfl
  | cons d r =>
    simp only [noDoubleUnder, Bool.and_eq_true] at h
    exact h.2

/-- In a double-underscore-free list the first two elements are not both
underscores. -/
theorem noDoubleUnder_head {c d : Char} {l : List Char}
    (h : noDoubleUnder (c :: d :: l) = true) :
    ¬(c = underChar ∧ d = underChar) := by
  rintro ⟨hc, hd⟩
  simp [noDoubleUnder, hc, hd] at h

/-- Extending a double-underscore-free list by a head that does not
create an underscore pair stays double-underscore-free. -/
theorem noDoubleUnder_cons_of {c : Char} {xs : List Char}
    (h1 : noDoubleUnder xs = true)
    (h2 : c = underChar → xs.head? ≠ some underChar) :
    noDoubleUnder (c :: xs) = true := by
  cases xs with
  | nil => rfl
  | cons d r =>
    by_cases hcu : c = underChar
    · have hd : ¬(d = underChar) := fun hdu => h2 hcu (by simp [hdu])
      simp [noDoubleUnder, hcu, hd, h1]
    · simp [noDoubleUnder, hcu, h1]

/-- Bridge to Mathlib's `Chain'`. -/
theorem noDoubleUnder_iff_chain (l : List Char) :
    noDoubleUnder l = true ↔
      l.Chain' (fun a b => ¬(a = underChar ∧ b = underChar)) := by
  induction l with
  | nil => simp [noDoubleUnder]
  | cons c rest ih =>
    cases rest with
    | nil => simp [noDoubleUnder]
    | cons d r =>
      rw [List.chain'_cons, ← ih]
      simp only [noDoubleUnder, Bool.and_eq_true, Bool.not_eq_true',
        Bool.and_eq_false_iff, decide_eq_false_iff_not]
      constructor
      · rintro ⟨h1, h2⟩
        refine ⟨?_, h2⟩
        rintro ⟨hc, hd⟩
        rcases h1 with h1 | h1
        · exact h1 hc
        · exact h1 hd
      · rintro ⟨h1, h2⟩
        refine ⟨?_, h2⟩
        by_cases hc : c = underChar
        · right
          intro hd
          exact h1 ⟨hc, hd⟩
        · left
          exact hc

/-- `noDoubleUnder` is preserved by reversal. -/
theorem noDoubleUnder_reverse_of {l : List Char} (h : noDoubleUnder l = true) :
    noDoubleUnder l.reverse = true := by
  rw [noDoubleUnder_iff_chain] at h ⊢
  rw [List.chain'_reverse]
  exact List.Chain'.imp (fun a b hab => by rw [Function.flip_def]; tauto) h

/-- `noDoubleUnder` is preserved by dropping a prefix. -/
theorem noDoubleUnder_dropWhile (p : Char → Bool) :
    ∀ l : List Char, noDoubleUnder l = true → noDoubleUnder (l.dropWhile p) = true := by
  intro l
  induction l with
  | nil => intro _; rfl
  | cons c rest ih =>
    intro h
    by_cases hp : p c = true
    · rw [List.dropWhile_cons_of_pos hp]
      exact ih (noDoubleUnder_tail h)
    · rw [List.dropWhile_cons_of_neg (by simpa using hp)]
      exact h

/-! ### The collapse stages -/

/-- Every character emitted by the non-alphanumeric collapse is a slug
character. -/
theorem collapseNonAlnum_all_slug :
    ∀ l : List Char, ∀ c ∈ collapseNonAlnum l, isSlugChar c = true := by
  intro l
  induction l using collapseNonAlnum.induct with
  | case1 =>
    intro c hc
    simp [collapseNonAlnum] at hc
  | case2 c rest h ih =>
    intro d hd
    rw [collapseNonAlnum, if_pos h] at hd
    rcases List.mem_cons.mp hd with rfl | hd2
    · simp [isSlugChar, h]
    · exact ih d hd2
  | case3 c rest h ih =>
    intro d hd
    rw [collapseNonAlnum, if_neg h] at hd
    rcases List.mem_cons.mp hd with rfl | hd2
    · rfl
    · exact ih d hd2

/-- The non-alphanumeric collapse fixes slug-shaped input. -/
theorem collapseNonAlnum_eq_self :
    ∀ l : List Char, (∀ c ∈ l, isSlugChar c = true) → noDoubleUnder l = true →
      collapseNonAlnum l = l := by
  intro l
  induction l using collapseNonAlnum.induct with
  | case1 => intro _ _; simp [collapseNonAlnum]
  | case2 c rest h ih =>
    intro hall hnd
    rw [collapseNonAlnum, if_pos h,
        ih (fun d hd => hall d (List.mem_cons_of_mem c hd)) (noDoubleUnder_tail hnd)]
  | case3 c rest h ih =>
    intro hall hnd
    have hcu : c = underChar := by
      have hsc := hall c (List.mem_cons_self c rest)
      simp only [isSlugChar, Bool.or_eq_true, decide_eq_true_eq] at hsc
      rcases hsc with hsc | hsc
      · exact absurd hsc h
      · exact hsc
    have hdw : rest.dropWhile (fun d => !(isLowerAlnum d)) = rest := by
      cases rest with
      | nil => rfl
      | cons d r =>
        have hd : ¬(d = underChar) := fun hdu => noDoubleUnder_head hnd ⟨hcu, hdu⟩
        have hds := hall d (List.mem_cons_of_mem c (List.mem_cons_self d r))
        have hda : isLowerAlnum d = true := by
          simp only [isSlugChar, Bool.or_eq_true, decide_eq_true_eq] at hds
          rcases hds with hds | hds
          · exact hds
          · exact absurd hds hd
        simp [List.dropWhile_cons, hda]
    rw [collapseNonAlnum, if_neg h, hcu.symm]
    rw [hdw] at ih ⊢
    rw [ih (fun d hd => hall d (List.mem_cons_of_mem c hd)) (noDoubleUnder_tail hnd)]

/-- The head of the underscore-run collapse is the head of its input. -/
theorem head?_collapseUnderRuns (l : List Char) :
    (collapseUnderRuns l).head? = l.head? := by
  cases l with
  | nil => simp [collapseUnderRuns]
  | cons c rest =>
    by_cases h : c = underChar
    · rw [collapseUnderRuns, if_pos h]; rfl
    · rw [collapseUnderRuns, if_neg h]; rfl

/-- Characters of the underscore-run collapse come from its input. -/
theorem mem_collapseUnderRuns {x : Char} :
    ∀ l : List Char, x ∈ collapseUnderRuns l → x ∈ l := by
  intro l
  induction l using collapseUnderRuns.induct with
  | case1 => intro hx; simp [collapseUnderRuns] at hx
  | case2 rest ih =>
    intro hx
    rw [collapseUnderRuns, if_pos rfl] at hx
    rcases List.mem_cons.mp hx with rfl | hx2
    · exact List.mem_cons_self _ rest
    · exact List.mem_cons_of_mem underChar (List.dropWhile_subset _ (ih hx2))
  | case3 c rest h ih =>
    intro hx
    rw [collapseUnderRuns, if_neg h] at hx
    rcases List.mem_cons.mp hx with rfl | hx2
    · exact List.mem_cons_self x rest
    · exact List.mem_cons_of_mem c (ih hx2)

/-- The underscore-run collapse leaves no adjacent underscores, whatever
the input. -/
theorem collapseUnderRuns_noDouble :
    ∀ l : List Char, noDoubleUnder (collapseUnderRuns l) = true := by
  intro l
  induction l using collapseUnderRuns.induct with
  | case1 => simp [collapseUnderRuns, noDoubleUnder]
  | case2 rest ih =>
    rw [collapseUnderRuns, if_pos rfl]
    apply noDoubleUnder_cons_of ih
    intro _
    rw [head?_collapseUnderRuns]
    have hnd := List.head?_dropWhile_not (fun d => decide (d = underChar)) rest
    cases ht : (rest.dropWhile (fun d => decide (d = underChar))).head? with
    | none => simp [ht]
    | some x =>
      rw [ht] at hnd
      simp only [decide_eq_false_iff_not] at hnd
      simp [ht, hnd]
  | case3 c rest h ih =>
    rw [collapseUnderRuns, if_neg h]
    apply noDoubleUnder_cons_of ih
    intro hcu
    exact absurd hcu h

/-- The underscore-run collapse fixes double-underscore-free input. -/
theorem collapseUnderRuns_eq_self :
    ∀ l : List Char, noDoubleUnder l = true → collapseUnderRuns l = l := by
  intro l
  induction l using collapseUnderRuns.induct with
  | case1 => intro _; simp [collapseUnderRuns]
  | case2 rest ih =>
    intro hnd
    have hdw : rest.dropWhile (fun d => decide (d = underChar)) = rest := by
      cases rest with
      | nil => rfl
      | cons d r =>
        have hd : ¬(d = underChar) := fun hdu => noDoubleUnder_head hnd ⟨rfl, hdu⟩
        simp [List.dropWhile_cons, hd]
    rw [hdw] at ih
    rw [collapseUnderRuns, if_pos rfl, hdw, ih (noDoubleUnder_tail hnd)]
  | case3 c rest h ih =>
    intro hnd
    rw [collapseUnderRuns, if_neg h, ih (noDoubleUnder_tail hnd)]

/-! ### The edge strip -/

/-- Characters of the edge strip come from its input. -/
theorem mem_stripEdgeUnders {x : Char} {l : List Char}
    (hx : x ∈ stripEdgeUnders l) : x ∈ l := by
  unfold stripEdgeUnders at hx
  rw [List.mem_reverse] at hx
  have hx2 := List.dropWhile_subset _ hx
  rw [List.mem_reverse] at hx2
  exact List.dropWhile_subset _ hx2

/-- The edge strip preserves absence of adjacent underscores. -/
theorem noDoubleUnder_stripEdgeUnders {l : List Char}
    (h : noDoubleUnder l = true) :
    noDoubleUnder (stripEdgeUnders l) = true := by
  unfold stripEdgeUnders
  exact noDoubleUnder_reverse_of
    (noDoubleUnder_dropWhile _ _ (noDoubleUnder_reverse_of (noDoubleUnder_dropWhile _ _ h)))

/-- After the edge strip the last character is not an underscore. -/
theorem getLast?_stripEdgeUnders (l : List Char) :
    (stripEdgeUnders l).getLast? ≠ some underChar := by
  unfold stripEdgeUnders
  rw [List.getLast?_reverse]
  have hnd := List.head?_dropWhile_not (fun c => decide (c = underChar))
    (l.dropWhile (fun c => decide (c = underChar))).reverse
  cases ht : ((l.dropWhile (fun c => decide (c = underChar))).reverse.dropWhile
      (fun c => decide (c = underChar))).head? with
  | none => simp [ht]
  | some x =>
    rw [ht] at hnd
    simp only [decide_eq_false_iff_not] at hnd
    simp [ht, hnd]

/-- After the edge strip the first character is not an underscore. -/
theorem head?_stripEdgeUnders (l : List Char) :
    (stripEdgeUnders l).head? ≠ some underChar := by
  unfold stripEdgeUnders
  rw [List.head?_reverse]
  cases hb : (l.dropWhile (fun c => decide (c = underChar))).reverse.dropWhile
      (fun c => decide (c = underChar)) with
  | nil => simp
  | cons b bs =>
    have hsuf : (b :: bs) <:+ (l.dropWhile (fun c => decide (c = underChar))).reverse := by
      rw [← hb]
      exact List.dropWhile_suffix _
    obtain ⟨t, hts⟩ := hsuf
    have hlast : (b :: bs).getLast? =
        (l.dropWhile (fun c => decide (c = underChar))).reverse.getLast? := by
      rw [← hts]
      exact (List.getLast?_append_of_ne_nil t (by simp)).symm
    rw [hlast, List.getLast?_reverse]
    have hnd := List.head?_dropWhile_not (fun c => decide (c = underChar)) l
    cases ht : (l.dropWhile (fun c => decide (c = underChar))).head? with
    | none => simp [ht]
    | some x =>
      rw [ht] at hnd
      simp only [decide_eq_false_iff_not] at hnd
      simp [ht, hnd]

/-- The edge strip fixes input whose ends are not underscores. -/
theorem stripEdgeUnders_eq_self {l : List Char}
    (hh : l.head? ≠ some underChar) (hl : l.getLast? ≠ some underChar) :
    stripEdgeUnders l = l := by
  unfold stripEdgeUnders
  have h1 : l.dropWhile (fun c => decide (c = underChar)) = l := by
    cases l with
    | nil => rfl
    | cons c rest =>
      have hc : ¬(c = underChar) := fun hcu => hh (by simp [hcu])
      simp [List.dropWhile_cons, hc]
  rw [h1]
  have h2 : l.reverse.dropWhile (fun c => decide (c = underChar)) = l.reverse := by
    cases hr : l.reverse with
    | nil => rfl
    | cons c rest =>
      have hc : l.getLast? = some c := by
        rw [← List.head?_reverse, hr]
        rfl
      have hcu : ¬(c = underChar) := fun hcu => hl (by rw [hc, hcu])
      simp [List.dropWhile_cons, hcu]
  rw [h2, List.reverse_reverse]

/-! ### Slug shape and idempotence of the full pipeline -/

/-- Every output of `_slugify` has slug shape, whatever the NFKD stage
does. -/
theorem slugifyL_isSlug (nfkd : List Char → List Char) (s : List Char) :
    isSlug (slugifyL nfkd s) = true := by
  show isSlug (stripEdgeUnders (collapseUnderRuns (collapseNonAlnum
    (dropApos (quotesToApos (replaceAmp (asciiIgnore (nfkd (pyLower (pyStrip s)))))))))) = true
  generalize dropApos (quotesToApos (replaceAmp (asciiIgnore (nfkd (pyLower (pyStrip s)))))) = s4
  have hall : ∀ c ∈ stripEdgeUnders (collapseUnderRuns (collapseNonAlnum s4)),
      isSlugChar c = true := by
    intro c hc
    exact collapseNonAlnum_all_slug s4 c
      (mem_collapseUnderRuns _ (mem_stripEdgeUnders hc))
  have hnd : noDoubleUnder (stripEdgeUnders (collapseUnderRuns (collapseNonAlnum s4))) = true :=
    noDoubleUnder_stripEdgeUnders (collapseUnderRuns_noDouble _)
  have hh := head?_stripEdgeUnders (collapseUnderRuns (collapseNonAlnum s4))
  have hl := getLast?_stripEdgeUnders (collapseUnderRuns (collapseNonAlnum s4))
  simp only [isSlug, Bool.and_eq_true, Bool.not_eq_true', decide_eq_false_iff_not,
    List.all_eq_true]
  exact ⟨⟨⟨hall, hnd⟩, hh⟩, hl⟩

/-- `_slugify` fixes every slug-shaped input, provided the NFKD stage
fixes ASCII input (as Unicode NFKD normalisation does). -/
theorem slugifyL_fixed_on_slug (nfkd : List Char → List Char)
    (hn : ∀ t : List Char, (∀ c ∈ t, isAsciiChar c = true) → nfkd t = t)
    (l : List Char) (hs : isSlug l = true) :
    slugifyL nfkd l = l := by
  simp only [isSlug, Bool.and_eq_true, Bool.not_eq_true', decide_eq_false_iff_not,
    List.all_eq_true] at hs
  obtain ⟨⟨⟨hall, hnd⟩, hh⟩, hl⟩ := hs
  have h1 : pyStrip l = l := pyStrip_eq_self (fun c hc => (slugChar_facts (hall c hc)).1)
  have h2 : pyLower l = l := pyLower_eq_self hall
  have h3 : nfkd l = l := hn l (fun c hc => (slugChar_facts (hall c hc)).2.1)
  have h4 : asciiIgnore l = l :=
    asciiIgnore_eq_self (fun c hc => (slugChar_facts (hall c hc)).2.1)
  have h5 : replaceAmp l = l :=
    replaceAmp_eq_self (fun c hc => (slugChar_facts (hall c hc)).2.2.1)
  have h6 : quotesToApos l = l :=
    quotesToApos_eq_self (fun c hc => (slugChar_facts (hall c hc)).2.2.2.1)
  have h7 : dropApos l = l :=
    dropApos_eq_self (fun c hc => (slugChar_facts (hall c hc)).2.2.2.2)
  have h8 : collapseNonAlnum l = l := collapseNonAlnum_eq_self l hall hnd
  have h9 : collapseUnderRuns l = l := collapseUnderRuns_eq_self l hnd
  have h10 : stripEdgeUnders l = l := stripEdgeUnders_eq_self hh hl
  show stripEdgeUnders (collapseUnderRuns (collapseNonAlnum
    (dropApos (quotesToApos (replaceAmp (asciiIgnore (nfkd (pyLower (pyStrip l))))))))) = l
  rw [h1, h2, h3, h4, h5, h6, h7, h8, h9, h10]

/-- C10: `_slugify` is idempotent - applying it to its own output
returns that output unchanged - and every output consists only of
lowercase ASCII letters, digits, and single interior underscores, with
no leading or trailing underscore; for any NFKD normalisation that
leaves ASCII text unchanged (as Unicode NFKD does). -/
theorem slugify_idempotent_and_shape :
    ∀ nfkd : List Char → List Char,
      (∀ t : List Char, (∀ c ∈ t, isAsciiChar c = true) → nfkd t = t) →
      ∀ s : List Char,
        isSlug (slugifyL nfkd s) = true ∧
        slugifyL nfkd (slugifyL nfkd s) = slugifyL nfkd s := by
  intro nfkd hn s
  exact ⟨slugifyL_isSlug nfkd s,
         slugifyL_fixed_on_slug nfkd hn _ (slugifyL_isSlug nfkd s)⟩

/-- Witness for C10: the identity function satisfies the NFKD
hypothesis, and on the concrete input "He llo!" the pipeline yields the
slug "he_llo", a fixed point. -/
theorem slugify_idempotent_and_shape_witness :
    isSlug (slugifyL (fun t => t)
      [Char.ofNat 72, Char.ofNat 101, Char.ofNat 32, Char.ofNat 108,
       Char.ofNat 108, Char.ofNat 111, Char.ofNat 33]) = true ∧
    slugifyL (fun t => t) (slugifyL (fun t => t)
      [Char.ofNat 72, Char.ofNat 101, Char.ofNat 32, Char.ofNat 108,
       Char.ofNat 108, Char.ofNat 111, Char.ofNat 33]) =
      slugifyL (fun t => t)
      [Char.ofNat 72, Char.ofNat 101, Char.ofNat 32, Char.ofNat 108,
       Char.ofNat 108, Char.ofNat 111, Char.ofNat 33] :=
  slugify_idempotent_and_shape (fun t => t) (fun _ _ => rfl)
    [Char.ofNat 72, Char.ofNat 101, Char.ofNat 32, Char.ofNat 108,
     Char.ofNat 108, Char.ofNat 111, Char.ofNat 33]

end GiftListener
